import Mathlib

/-!
Verification of the Trogon provisional-patent intake pipeline.

The JavaScript under `api/` is shallowly embedded here.  JavaScript strings
and byte buffers are modelled as lists of (ASCII) character codes
(`JStr := List Nat`); every definition mirrors the corresponding source
function, with the source name kept where Lean allows it.  External
collaborators (the blob store, the Neon datastore, the classification
service, pdf-parse) are modelled at their interface boundary: the datastore
as an explicit state record threaded through the handlers, pdf-parse as an
`Option`-valued function parameter.
-/

set_option maxRecDepth 8192

namespace Trogon

/-- JavaScript strings / byte buffers as lists of character codes. -/
abbrev JStr := List Nat

/-- Decode a Lean string literal into the character-code model. -/
def str (s : String) : JStr := s.data.map Char.toNat

/-- ASCII lower-casing, the fragment of JS `toLowerCase` relevant here. -/
def lowerChar (c : Nat) : Nat := if 65 ≤ c ∧ c ≤ 90 then c + 32 else c

/-- ASCII upper-casing, the fragment of JS `toUpperCase` relevant here. -/
def upperChar (c : Nat) : Nat := if 97 ≤ c ∧ c ≤ 122 then c - 32 else c

/-- Whitespace characters removed by JS `String.prototype.trim`
(ASCII fragment: tab, LF, VT, FF, CR, space). -/
def isWS (c : Nat) : Bool := c == 9 || c == 10 || c == 11 || c == 12 || c == 13 || c == 32

/-- Drop leading whitespace. -/
def dropLeadWS : JStr → JStr
  | [] => []
  | c :: t => if isWS c then dropLeadWS t else c :: t

/-- Drop trailing whitespace. -/
def dropTrailWS (s : JStr) : JStr := (dropLeadWS s.reverse).reverse

/-- JS `String.prototype.trim`. -/
def jsTrim (s : JStr) : JStr := dropTrailWS (dropLeadWS s)

/-- JS `String.prototype.startsWith`. -/
def startsWith (p s : JStr) : Bool := p.isPrefixOf s

/-- JS `String.prototype.endsWith`. -/
def endsWith (p s : JStr) : Bool := p.reverse.isPrefixOf s.reverse

/-- `stripMarkdownCodeBlocks` from the classify route: trim, drop a
leading "```json" or "```" if present, drop a trailing "```" if present,
trim again.  Note the two fence checks are independent `if`s in the
source. -/
def stripMarkdownCodeBlocks (text : JStr) : JStr :=
  let c1 := jsTrim text
  let c2 :=
    if startsWith (str "```json") c1 then c1.drop 7
    else if startsWith (str "```") c1 then c1.drop 3
    else c1
  let c3 := if endsWith (str "```") c2 then c2.take (c2.length - 3) else c2
  jsTrim c3

/-- JS `String.prototype.includes` (substring test). -/
def isSubstring (needle : JStr) : JStr → Bool
  | [] => needle.isEmpty
  | c :: t => needle.isPrefixOf (c :: t) || isSubstring needle t

/-- First match of the regex `pat("[^"]+")` (a literal `pat` followed by a
quote-delimited, non-empty capture), scanning positions left to right the
way the JS regex engine does; `pat` is passed including its opening quote,
e.g. the source regex `/name="([^"]+)"/` is `matchAttr (str "name=\"")`.
Returns the capture of the first position where the literal matches and a
non-empty run of non-quote characters is terminated by a closing quote. -/
def matchAttr (pat : JStr) : JStr → Option JStr
  | [] => none
  | c :: t =>
    if pat.isPrefixOf (c :: t) then
      let rest := (c :: t).drop pat.length
      let cap := rest.takeWhile (fun x => x ≠ 34)
      if cap ≠ [] ∧ cap.length < rest.length then some cap
      else matchAttr pat t
    else matchAttr pat t

/-- First match of the regex `pat([^\r\n]+)`, as in the source regex
`/Content-Type: ([^\r\n]+)/`. -/
def matchLine (pat : JStr) : JStr → Option JStr
  | [] => none
  | c :: t =>
    if pat.isPrefixOf (c :: t) then
      let cap := ((c :: t).drop pat.length).takeWhile (fun x => x ≠ 13 ∧ x ≠ 10)
      if cap ≠ [] then some cap else matchLine pat t
    else matchLine pat t

/-- JS `String.prototype.indexOf` (first occurrence), `none` for `-1`. -/
def indexOfSub (needle : JStr) : JStr → Option Nat
  | [] => if needle = [] then some 0 else none
  | c :: t =>
    if needle.isPrefixOf (c :: t) then some 0
    else (indexOfSub needle t).map (· + 1)

/-- JS `String.prototype.lastIndexOf` (last occurrence), `none` for `-1`. -/
def lastIndexOfSub (needle : JStr) : JStr → Option Nat
  | [] => if needle = [] then some 0 else none
  | c :: t =>
    match lastIndexOfSub needle t with
    | some n => some (n + 1)
    | none => if needle.isPrefixOf (c :: t) then some 0 else none

/-- JS `String.prototype.substring` on integer indices: indices are clamped
to `[0, length]` and swapped when out of order. -/
def jsSubstring (a b : Int) (s : JStr) : JStr :=
  let n : Int := s.length
  let a2 := min (max a 0) n
  let b2 := min (max b 0) n
  let lo := min a2 b2
  let hi := max a2 b2
  (s.take hi.toNat).drop lo.toNat

/-- JS index result as the `-1`-convention integer. -/
def idxInt (o : Option Nat) : Int :=
  match o with
  | some n => n
  | none => -1

/-- Body bytes of one multipart segment, as in the source:
`part.substring(part.indexOf('\r\n\r\n') + 4, part.lastIndexOf('\r\n'))`. -/
def partContent (part : JStr) : JStr :=
  jsSubstring (idxInt (indexOfSub (str "\r\n\r\n") part) + 4)
    (idxInt (lastIndexOfSub (str "\r\n") part)) part

/-- A parsed file entry of `parseFormData`. -/
structure FilePart where
  filename : JStr
  buffer : JStr
  mimetype : JStr
deriving DecidableEq, Repr

/-- The declared media type of a file segment:
`part.match(/Content-Type: ([^\r\n]+)/)?.[1] || 'application/octet-stream'`. -/
def partMimetype (part : JStr) : JStr :=
  (matchLine (str "Content-Type: ") part).getD (str "application/octet-stream")

/-- Outcome of the `parseFormData` loop body for one boundary segment. -/
inductive PartClass where
  | skip : PartClass
  | field : JStr → JStr → PartClass
  | file : JStr → FilePart → PartClass
deriving DecidableEq, Repr

/-- The body of the `for (const part of parts)` loop in `parseFormData`:
a segment is skipped unless it contains `Content-Disposition` and the
regex `/name="([^"]+)"/` matches; it is a file exactly when
`/filename="([^"]+)"/` matches (a non-empty quote-delimited capture),
otherwise a plain field. -/
def classifyPart (part : JStr) : PartClass :=
  if isSubstring (str "Content-Disposition") part then
    match matchAttr (str "name=\"") part with
    | none => PartClass.skip
    | some nm =>
      match matchAttr (str "filename=\"") part with
      | some fn => PartClass.file nm ⟨fn, partContent part, partMimetype part⟩
      | none => PartClass.field nm (partContent part)
  else PartClass.skip

/-- JS object property assignment `obj[k] = v` on an insertion-ordered
association list: an existing key keeps its position, a new key is
appended. -/
def objSet {V : Type} (k : JStr) (v : V) : List (JStr × V) → List (JStr × V)
  | [] => [(k, v)]
  | (k2, v2) :: rest => if k2 = k then (k2, v) :: rest else (k2, v2) :: objSet k v rest

/-- The accumulation loop of `parseFormData` over the boundary segments
(the segments are the result of splitting the raw body on the boundary
token; they are processed in original byte order). -/
def parseFormDataLoop :
    List JStr → List (JStr × JStr) × List (JStr × FilePart) →
    List (JStr × JStr) × List (JStr × FilePart)
  | [], acc => acc
  | p :: ps, (fd, fl) =>
    match classifyPart p with
    | PartClass.skip => parseFormDataLoop ps (fd, fl)
    | PartClass.field n b => parseFormDataLoop ps (objSet n b fd, fl)
    | PartClass.file n f => parseFormDataLoop ps (fd, objSet n f fl)

/-- `parseFormData`, from the boundary segments onward: returns the
`formData` fields object and the `files` object. -/
def parseFormData (parts : List JStr) : List (JStr × JStr) × List (JStr × FilePart) :=
  parseFormDataLoop parts ([], [])

/-- The field entry a segment contributes, if any. -/
def fieldEntry (part : JStr) : Option (JStr × JStr) :=
  match classifyPart part with
  | PartClass.field n b => some (n, b)
  | _ => none

/-- The file entry a segment contributes, if any. -/
def fileEntry (part : JStr) : Option (JStr × FilePart) :=
  match classifyPart part with
  | PartClass.file n f => some (n, f)
  | _ => none

/-- Spec-side reading of "carries a filename attribute, even when that
filename is the empty string": some position of the segment matches
`filename="` followed by a (possibly empty) run of non-quote characters
closed by a quote — the regex `/filename="([^"]*)"/` with a star. -/
def hasFilenameAttrSpec : JStr → Bool
  | [] => false
  | c :: t =>
    ((str "filename=\"").isPrefixOf (c :: t) &&
      (((c :: t).drop (str "filename=\"").length).takeWhile (fun x => x ≠ 34)).length
        < ((c :: t).drop (str "filename=\"").length).length) ||
    hasFilenameAttrSpec t

/-- Spec-side predicate "some position carries `pat` with a non-empty
quote-delimited value", stated as a plain existential over positions; the
amended C4 theorem relates it to the scanning `matchAttr`. -/
def attrMatchAt (pat s : JStr) (i : Nat) : Prop :=
  pat.isPrefixOf (s.drop i) ∧
  ((s.drop i).drop pat.length).takeWhile (fun x => x ≠ 34) ≠ [] ∧
  (((s.drop i).drop pat.length).takeWhile (fun x => x ≠ 34)).length
    < ((s.drop i).drop pat.length).length

/-- `extractText` from the upload route.  `pdfParse` is the external
pdf-parse library: `none` models the library being absent (the
`require` failed), otherwise a function from the buffer to either the
extracted text or a parse failure message. -/
def extractText (pdfParse : Option (JStr → Except JStr JStr)) (file : FilePart) :
    Except JStr JStr :=
  if file.mimetype = str "text/plain" ∨ endsWith (str ".txt") file.filename = true then
    Except.ok file.buffer
  else if file.mimetype = str "application/pdf" ∨ endsWith (str ".pdf") file.filename = true then
    match pdfParse with
    | none => Except.error (str "PDF parsing not available. Install pdf-parse package.")
    | some f =>
      match f file.buffer with
      | Except.ok t => Except.ok t
      | Except.error m => Except.error (str "Failed to extract text from PDF: " ++ m)
  else Except.error (str "Unsupported file type. Please upload PDF or TXT file.")

/-- A calendar date (month 1-based). -/
structure YMD where
  y : Nat
  m : Nat
  d : Nat
deriving DecidableEq, Repr

/-- Gregorian leap year. -/
def isLeap (y : Nat) : Bool := (y % 4 == 0 && y % 100 != 0) || y % 400 == 0

/-- Days in month `m0` (0-based month index) of year `y`. -/
def daysInMonth (y : Nat) (m0 : Nat) : Nat :=
  match m0 with
  | 0 => 31
  | 1 => if isLeap y then 29 else 28
  | 2 => 31
  | 3 => 30
  | 4 => 31
  | 5 => 30
  | 6 => 31
  | 7 => 31
  | 8 => 30
  | 9 => 31
  | 10 => 30
  | _ => 31

/-- `calculatePublicationDeadline` from the upload route:
`new Date(filingDate)` (an ISO date, UTC), `setMonth(getMonth() + 18)`,
read back as `YYYY-MM-DD`.  JS `setMonth` adds to the month index and
rolls a day that exceeds the target month into the following month, which
for a valid input day (≤ 31) overflows by at most 3 days. -/
def calculatePublicationDeadline (fd : YMD) : YMD :=
  let t := (fd.m - 1) + 18
  let y2 := fd.y + t / 12
  let m2 := t % 12
  if fd.d ≤ daysInMonth y2 m2 then ⟨y2, m2 + 1, fd.d⟩
  else
    let d2 := fd.d - daysInMonth y2 m2
    if m2 = 11 then ⟨y2 + 1, 1, d2⟩ else ⟨y2, m2 + 2, d2⟩

/-- Spec-side reading of "the filing date plus exactly 18 calendar
months": same day of month, month index advanced by 18. -/
def plus18MonthsSpec (fd : YMD) : YMD :=
  ⟨fd.y + ((fd.m - 1) + 18) / 12, ((fd.m - 1) + 18) % 12 + 1, fd.d⟩

/-- Generic filename terms from `generateTitle`. -/
def genericNames : List JStr :=
  [str "provisional", str "patent", str "spec", str "specification",
   str "application", str "document"]

/-- `filename.replace(/\.(pdf|txt)$/i, '')`: does the string end in a
(case-insensitive) `.pdf` or `.txt` extension? -/
def hasExtSuffix (s : JStr) : Bool :=
  let t := (s.drop (s.length - 4)).map lowerChar
  if t = str ".pdf" ∨ t = str ".txt" then true else false

/-- Strip one terminal `.pdf`/`.txt` extension (case-insensitive). -/
def stripExt (s : JStr) : JStr :=
  if hasExtSuffix s then s.take (s.length - 4) else s

/-- `.replace(/[-_]/g, ' ')`. -/
def replaceSeps (s : JStr) : JStr :=
  s.map (fun c => if c = 45 ∨ c = 95 then 32 else c)

/-- `genericNames.some(name => title.toLowerCase().includes(name))`. -/
def isGeneric (t : JStr) : Bool :=
  genericNames.any (fun n => isSubstring n (t.map lowerChar))

/-- JS `String.prototype.split` with a single-character separator. -/
def splitCh (sep : Nat) : JStr → List JStr
  | [] => [[]]
  | c :: cs =>
    match splitCh sep cs with
    | [] => [[]]
    | w :: ws => if c = sep then [] :: w :: ws else (c :: w) :: ws

/-- `Array.prototype.join` with a single-character separator. -/
def joinCh (sep : Nat) : List JStr → JStr
  | [] => []
  | [w] => w
  | w :: w2 :: ws => w ++ sep :: joinCh sep (w2 :: ws)

/-- One word of the title-casing step:
`word.charAt(0).toUpperCase() + word.slice(1).toLowerCase()`. -/
def tcWord : JStr → JStr
  | [] => []
  | c :: cs => upperChar c :: cs.map lowerChar

/-- The title-casing step of `generateTitle`:
`title.split(' ').map(tcWord).join(' ')`. -/
def titleCaseStr (s : JStr) : JStr := joinCh 32 ((splitCh 32 s).map tcWord)

/-- Scanner form of `titleCaseStr` used in the proofs: upper-case a
character at the start of a word, lower-case it otherwise. -/
def tcScan (atStart : Bool) : JStr → JStr
  | [] => []
  | c :: t =>
    if c = 32 then 32 :: tcScan true t
    else (if atStart then upperChar c else lowerChar c) :: tcScan false t

/-- Section-header prefixes skipped by the fallback scan
(regex `/^(background|summary|detailed|abstract|field|technical)/i`). -/
def headerPrefixes : List JStr :=
  [str "background", str "summary", str "detailed", str "abstract",
   str "field", str "technical"]

/-- Number of maximal runs of non-whitespace characters. -/
def countRunsAux (inRun : Bool) : JStr → Nat
  | [] => 0
  | c :: t =>
    if isWS c then countRunsAux false t
    else (if inRun then 0 else 1) + countRunsAux true t

/-- Length of the JS split `s.split(/\s+/)`: the number of maximal
non-whitespace runs, plus an empty leading (resp. trailing) piece when the
string starts (resp. ends) with whitespace; the empty string splits into
`[""]`.  Used by `generateTitle` only on trimmed lines. -/
def wordCountJS (s : JStr) : Nat :=
  if s = [] then 1
  else
    countRunsAux false s +
    (match s.head? with | some c => if isWS c then 1 else 0 | none => 0) +
    (match s.reverse.head? with | some c => if isWS c then 1 else 0 | none => 0)

/-- The non-blank lines of the text:
`text.split('\n').filter(line => line.trim().length > 0)`. -/
def nonBlankLines (text : JStr) : List JStr :=
  (splitCh 10 text).filter (fun l => 0 < (jsTrim l).length)

/-- The fallback scan of `generateTitle` over (at most 10) non-blank
lines: skip section headers; accept the first line of 10–100 characters
that is not all-caps, or is all-caps with 3–10 words. -/
def findTitleLine : List JStr → Option JStr
  | [] => none
  | l :: ls =>
    let trimmed := jsTrim l
    if headerPrefixes.any (fun p => p.isPrefixOf (trimmed.map lowerChar)) then
      findTitleLine ls
    else if 10 ≤ trimmed.length ∧ trimmed.length ≤ 100 then
      if trimmed ≠ trimmed.map upperChar ∨
          (3 ≤ wordCountJS trimmed ∧ wordCountJS trimmed ≤ 10) then
        some trimmed
      else findTitleLine ls
    else findTitleLine ls

/-- `generateTitle` from the upload route.  The final JS guard
`!title || title.length < 5` is the single test `length < 5`, since the
empty string has length `0`. -/
def generateTitle (filename text : JStr) : JStr :=
  let t0 := replaceSeps (stripExt filename)
  let t1 :=
    if isGeneric t0 = true ∨ t0.length < 5 then
      match findTitleLine ((nonBlankLines text).take 10) with
      | some l => l
      | none => t0
    else t0
  let t2 := (titleCaseStr t1).take 200
  if t2.length < 5 then str "Untitled Provisional Application" else t2

/-- One CPC prediction of the classify route; the presentation-heuristic
confidences are modelled as exact rationals. -/
structure CpcPred where
  code : JStr
  confidence : ℚ
  description : JStr
deriving DecidableEq

/-- The `let confidence = 0.87; for (...) { push; confidence -= 0.06 }`
loop of the classify route, over the first four secondary codes. -/
def buildSecondaryCpcs : ℚ → List JStr → List CpcPred
  | _, [] => []
  | conf, c :: cs =>
    ⟨c, conf, str "Secondary classification"⟩ :: buildSecondaryCpcs (conf - 6/100) cs

/-- The `cpcPredictions` array built by the classify route: the primary
code at fixed confidence 0.92, then at most four secondary codes starting
at 0.87 and decreasing by 0.06 each. -/
def buildCpcPredictions (primaryCpc : JStr) (secondaryCpcs : List JStr) : List CpcPred :=
  ⟨primaryCpc, 92/100, str "Primary technology classification"⟩ ::
    buildSecondaryCpcs (87/100) (secondaryCpcs.take 4)

/-- The parsed inbound upload request, from the point where
`parseFormData` has produced the form fields and the file.
`filingDate` is the parsed `YYYY-MM-DD` form value (`none` for an absent
or empty field, both falsy in the source guard); `isPreFiling` is the
form value as the string the client serializes its boolean into. -/
structure UploadRequest where
  method : JStr
  file : Option FilePart
  filingDate : Option YMD
  isPreFiling : JStr

/-- Externally visible side effects of one run of the upload route. -/
structure UploadEffects where
  extractionAttempted : Bool
  blobUploaded : Bool
  dbInserted : Bool
  classifyCalled : Bool
deriving DecidableEq, Repr

/-- No side effect has happened. -/
def noEffects : UploadEffects := ⟨false, false, false, false⟩

/-- The `applications` row inserted by the upload route. -/
structure AppRow where
  title : JStr
  filing_date : Option YMD
  publication_deadline : Option YMD
  is_provisional : Bool
  specification_text : JStr
  file_url : JStr
  file_name : JStr
deriving DecidableEq, Repr

/-- Result of one run of the upload route: HTTP status, side effects, the
inserted row if any, and the `publicationDeadline` of the response. -/
structure UploadResult where
  status : Nat
  effects : UploadEffects
  insertedRow : Option AppRow
  respDeadline : Option YMD
deriving DecidableEq, Repr

/-- The handler of `api/upload-provisional.js`, from the parsed form data
onward.  Control flow mirrors the source: method check, missing-file
check, the 10 MiB size limit, text extraction (an extraction error is
caught by the route-level `catch` and returned as a 500), the
100-character minimum on the trimmed text, then title derivation, the
blob upload, the deadline computation and the database insert.  The blob
locator is opaque; the stored URL is modelled by the file name.  This
route contains no call to the classification service, so `classifyCalled`
is never set. -/
def uploadProvisionalHandler (pdfParse : Option (JStr → Except JStr JStr))
    (req : UploadRequest) : UploadResult :=
  if req.method ≠ str "POST" then ⟨405, noEffects, none, none⟩
  else
    match req.file with
    | none => ⟨400, noEffects, none, none⟩
    | some file =>
      if 10 * 1024 * 1024 < file.buffer.length then ⟨400, noEffects, none, none⟩
      else
        match extractText pdfParse file with
        | Except.error _ => ⟨500, ⟨true, false, false, false⟩, none, none⟩
        | Except.ok extractedText =>
          if (jsTrim extractedText).length < 100 then
            ⟨400, ⟨true, false, false, false⟩, none, none⟩
          else
            let autoTitle := generateTitle file.filename extractedText
            let fileUrl := file.filename
            let publicationDeadline :=
              if req.isPreFiling = str "false" then
                match req.filingDate with
                | some fd => some (calculatePublicationDeadline fd)
                | none => none
              else none
            let row : AppRow :=
              ⟨autoTitle, req.filingDate, publicationDeadline, true,
               extractedText, fileUrl, file.filename⟩
            ⟨200, ⟨true, true, true, false⟩, some row, publicationDeadline⟩

/-- One approved POD as sent in the save request body; `rationale`,
`isPrimary` and `suggested` may be absent, and the source applies `||`
defaults to them. -/
structure PodInput where
  text : JStr
  rationale : Option JStr
  isPrimary : Option Bool
  suggested : Option Bool
deriving DecidableEq, Repr

/-- `pod.rationale || 'User approved POD'`: absent and empty string are
both falsy. -/
def rationaleOrDefault (o : Option JStr) : JStr :=
  match o with
  | some s => if s = [] then str "User approved POD" else s
  | none => str "User approved POD"

/-- A persisted `pod_definitions` row. -/
structure PodRow where
  application_id : Nat
  pod_text : JStr
  pod_rationale : JStr
  is_primary : Bool
  suggested_by_system : Bool
  user_approved : Bool
  display_order : Nat
deriving DecidableEq, Repr

/-- The denormalized classification fields of an `applications` row that
the save route updates (`updated_at` is wall-clock time and outside the
model). -/
structure AppCpcFields where
  title : Option JStr
  classifier_predictions : Option (List CpcPred)
  predicted_primary_cpc : Option JStr
  technology_area : Option JStr
deriving DecidableEq

/-- The durable state the save route touches: the `applications` rows (by
id) and the `pod_definitions` table, in insertion order. -/
structure DB where
  applications : List (Nat × AppCpcFields)
  pod_definitions : List PodRow
deriving DecidableEq

/-- The save request body of `save-provisional`. -/
structure SaveRequest where
  method : JStr
  applicationId : Option Nat
  title : Option JStr
  cpcPredictions : Option (List CpcPred)
  primaryCpc : Option JStr
  technologyArea : Option JStr
  approvedPods : Option (List PodInput)

/-- The `UPDATE applications SET ... WHERE id = applicationId` statement:
rows with a matching id get the request fields, others are untouched. -/
def updateAppRows (appId : Nat) (req : SaveRequest) :
    List (Nat × AppCpcFields) → List (Nat × AppCpcFields) :=
  List.map (fun r =>
    if r.fst = appId then
      (r.fst, ⟨req.title, req.cpcPredictions, req.primaryCpc, req.technologyArea⟩)
    else r)

/-- The insert loop of the save route: row `i` (0-based) is stored with
`display_order = i + 1`, `user_approved = true` and the `||` defaults. -/
def mkPodRows (appId : Nat) : Nat → List PodInput → List PodRow
  | _, [] => []
  | i, p :: ps =>
    ⟨appId, p.text, rationaleOrDefault p.rationale, p.isPrimary.getD false,
     p.suggested.getD false, true, i + 1⟩ :: mkPodRows appId (i + 1) ps

/-- The handler of `save-provisional` (src/unnamed/part_000): method
check, `applicationId` presence check, the `approvedPods.length >= 3`
validation — all before any SQL — then the `applications` update, the
`DELETE FROM pod_definitions WHERE application_id = ...`, and one insert
per approved POD.  When `cpcPredictions` is absent the source throws on
reading `cpcPredictions.length` (in the logging statement before any SQL)
and the catch block answers 500 with the state untouched. -/
def saveProvisionalHandler (req : SaveRequest) (db : DB) : Nat × DB :=
  if req.method ≠ str "POST" then (405, db)
  else
    match req.applicationId with
    | none => (400, db)
    | some appId =>
      match req.approvedPods with
      | none => (400, db)
      | some pods =>
        if pods.length < 3 then (400, db)
        else
          match req.cpcPredictions with
          | none => (500, db)
          | some _ =>
            let apps1 := updateAppRows appId req db.applications
            let pods1 :=
              db.pod_definitions.filter (fun r => decide (r.application_id ≠ appId))
            let pods2 := pods1 ++ mkPodRows appId 0 pods
            (200, ⟨apps1, pods2⟩)

/-- The `pod_definitions` rows persisted for one application. -/
def podsFor (appId : Nat) (db : DB) : List PodRow :=
  db.pod_definitions.filter (fun r => decide (r.application_id = appId))

/-- A concrete approved POD used by the witnesses. -/
def podA : PodInput := ⟨str "pivot offset creating a non-linear ratio", none, some true, some true⟩

/-- A concrete approved POD used by the witnesses. -/
def podB : PodInput := ⟨str "linkage with two driven arms", some (str "geometry"), none, none⟩

/-- A concrete approved POD used by the witnesses. -/
def podC : PodInput := ⟨str "sensor fusion of wheel angle", some [], some false, none⟩

/-- A concrete save request used by the witnesses. -/
def saveReqEx : SaveRequest :=
  ⟨str "POST", some 7, some (str "Steering Linkage"), some [],
   some (str "B62D"), some (str "Mechanical/Electrical"), some [podA, podB, podC]⟩

/-- A concrete datastore state used by the witnesses: application 7
already has two PODs from an earlier commit, application 8 has one. -/
def dbEx : DB :=
  ⟨[(7, ⟨none, none, none, none⟩), (8, ⟨none, none, none, none⟩)],
   [⟨7, str "stale pod", str "old", false, true, true, 1⟩,
    ⟨8, str "other app pod", str "r", false, false, true, 1⟩,
    ⟨7, str "stale pod two", str "old", true, true, true, 2⟩]⟩

/-- A concrete plain-field multipart segment used by the witnesses. -/
def segFieldEx : JStr :=
  str "Content-Disposition: form-data; name=\"filingDate\"\r\n\r\n2025-01-15\r\n"

/-- A concrete file multipart segment used by the witnesses. -/
def segFileEx : JStr :=
  str "Content-Disposition: form-data; name=\"file\"; filename=\"a.txt\"\r\nContent-Type: text/plain\r\n\r\nhello\r\n"

/-- Proof helper: the tail a non-leading word list contributes to the
title-cased join (empty for no remaining words, otherwise a separating
space followed by the joined title-cased words). -/
def tcJoinRest (ws : List JStr) : JStr :=
  match ws with
  | [] => []
  | _ :: _ => 32 :: joinCh 32 (ws.map tcWord)

namespace Lemmas

theorem filter_eq_of_filter_ne (a : Nat) (l : List PodRow) :
    (l.filter (fun r => decide (r.application_id ≠ a))).filter
      (fun r => decide (r.application_id = a)) = [] := by
  induction l with
  | nil => rfl
  | cons h t ih =>
    by_cases hh : h.application_id = a
    · simp [List.filter, hh, ih]
    · simp [List.filter, hh, ih]

theorem filter_ne_idem (a : Nat) (l : List PodRow) :
    ((l.filter (fun r => decide (r.application_id ≠ a))).filter
      (fun r => decide (r.application_id ≠ a)))
      = l.filter (fun r => decide (r.application_id ≠ a)) := by
  induction l with
  | nil => rfl
  | cons h t ih =>
    by_cases hh : h.application_id = a
    · simp [List.filter, hh, ih]
    · simp [List.filter, hh, ih]

theorem mkPodRows_filter_eq (a : Nat) (ps : List PodInput) :
    ∀ i, (mkPodRows a i ps).filter (fun r => decide (r.application_id = a))
      = mkPodRows a i ps := by
  induction ps with
  | nil => intro i; rfl
  | cons p t ih => intro i; simp [mkPodRows, List.filter, ih]

theorem mkPodRows_appId (a : Nat) (ps : List PodInput) :
    ∀ i, ∀ r ∈ mkPodRows a i ps, r.application_id = a := by
  induction ps with
  | nil => intro i r hr; cases hr
  | cons p t ih =>
    intro i r hr
    rcases List.mem_cons.mp hr with hr | hr
    · rw [hr]
    · exact ih (i + 1) r hr

theorem mkPodRows_filter_ne (a : Nat) (ps : List PodInput) :
    ∀ i, (mkPodRows a i ps).filter (fun r => decide (r.application_id ≠ a)) = [] := by
  intro i
  rw [List.filter_eq_nil_iff]
  intro r hr
  simp [mkPodRows_appId a ps i r hr]

theorem mkPodRows_length (a : Nat) (ps : List PodInput) :
    ∀ i, (mkPodRows a i ps).length = ps.length := by
  induction ps with
  | nil => intro i; rfl
  | cons p t ih => intro i; simp [mkPodRows, ih]

theorem mkPodRows_display (a : Nat) (ps : List PodInput) :
    ∀ i, (mkPodRows a i ps).map PodRow.display_order = List.range' (i + 1) ps.length := by
  induction ps with
  | nil => intro i; rfl
  | cons p t ih => intro i; simp [mkPodRows, List.range', ih]

theorem mkPodRows_texts (a : Nat) (ps : List PodInput) :
    ∀ i, (mkPodRows a i ps).map PodRow.pod_text = ps.map PodInput.text := by
  induction ps with
  | nil => intro i; rfl
  | cons p t ih => intro i; simp [mkPodRows, ih]

theorem mkPodRows_approved (a : Nat) (ps : List PodInput) :
    ∀ i, ∀ r ∈ mkPodRows a i ps, r.user_approved = true := by
  induction ps with
  | nil => intro i r hr; cases hr
  | cons p t ih =>
    intro i r hr
    rcases List.mem_cons.mp hr with hr | hr
    · rw [hr]
    · exact ih (i + 1) r hr

theorem updateAppRows_idem (a : Nat) (req : SaveRequest) (l : List (Nat × AppCpcFields)) :
    updateAppRows a req (updateAppRows a req l) = updateAppRows a req l := by
  induction l with
  | nil => rfl
  | cons h t ih =>
    by_cases hh : h.fst = a
    · simp [updateAppRows, hh] at ih ⊢
      exact ih
    · simp [updateAppRows, hh] at ih ⊢
      exact ih

end Lemmas

/-- C7: every prediction list built by the classify route gives the
primary classification confidence exactly 0.92, contains at most 4
secondary classifications, has strictly decreasing confidences all within
(0, 1] with every secondary below 0.92, and the secondary confidences
start at 0.87 and drop by exactly 0.06 each. -/
theorem C7_cpc_confidences (primaryCpc : JStr) (secondaryCpcs : List JStr) :
    ((buildCpcPredictions primaryCpc secondaryCpcs).map CpcPred.confidence).head?
      = some (92/100) ∧
    (buildCpcPredictions primaryCpc secondaryCpcs).tail.length ≤ 4 ∧
    List.Chain' (fun a b => b < a)
      ((buildCpcPredictions primaryCpc secondaryCpcs).map CpcPred.confidence) ∧
    (∀ x ∈ buildCpcPredictions primaryCpc secondaryCpcs,
       0 < x.confidence ∧ x.confidence ≤ 1) ∧
    (∀ x ∈ (buildCpcPredictions primaryCpc secondaryCpcs).tail,
       x.confidence < 92/100) ∧
    ((buildCpcPredictions primaryCpc secondaryCpcs).tail.map CpcPred.confidence
      = (List.range (buildCpcPredictions primaryCpc secondaryCpcs).tail.length).map
          (fun i => (87/100 : ℚ) - (6/100) * i)) := by
  rcases secondaryCpcs with _ | ⟨a, _ | ⟨b, _ | ⟨c, _ | ⟨d, t⟩⟩⟩⟩ <;>
    simp [buildCpcPredictions, buildSecondaryCpcs, List.range_succ] <;>
    norm_num

/-- C1: a save request whose approved POD list has fewer than 3 entries
is rejected with a validation error before any statement runs, leaving
the datastore untouched; with 3 or more entries the commit succeeds and
persists exactly that many POD rows, with `display_order` 1, 2, ..., N
assigned in list order (the request must carry an `applicationId` and a
`cpcPredictions` array — without the latter the source throws on
`cpcPredictions.length` before any SQL and answers 500, still mutating
nothing). -/
theorem C1_commit_validation (req : SaveRequest) (db : DB) (appId : Nat)
    (pods : List PodInput)
    (hm : req.method = str "POST")
    (ha : req.applicationId = some appId)
    (hp : req.approvedPods = some pods)
    (hc : req.cpcPredictions.isSome = true) :
    (pods.length < 3 → saveProvisionalHandler req db = (400, db)) ∧
    (3 ≤ pods.length →
       (saveProvisionalHandler req db).fst = 200 ∧
       podsFor appId (saveProvisionalHandler req db).snd = mkPodRows appId 0 pods ∧
       (podsFor appId (saveProvisionalHandler req db).snd).length = pods.length ∧
       (podsFor appId (saveProvisionalHandler req db).snd).map PodRow.display_order
         = List.range' 1 pods.length ∧
       (podsFor appId (saveProvisionalHandler req db).snd).map PodRow.pod_text
         = pods.map PodInput.text) := by
  obtain ⟨cpcs, hcp⟩ := Option.isSome_iff_exists.mp hc
  constructor
  · intro h3
    simp [saveProvisionalHandler, hm, ha, hp, h3]
  · intro h3
    have h3' : ¬ pods.length < 3 := by omega
    have hrun : saveProvisionalHandler req db
        = (200, ⟨updateAppRows appId req db.applications,
           db.pod_definitions.filter (fun r => decide (r.application_id ≠ appId))
             ++ mkPodRows appId 0 pods⟩) := by
      simp [saveProvisionalHandler, hm, ha, hp, hcp, h3']
    have hpods : podsFor appId (saveProvisionalHandler req db).snd
        = mkPodRows appId 0 pods := by
      rw [hrun]
      simp only [podsFor, List.filter_append]
      rw [Lemmas.filter_eq_of_filter_ne, Lemmas.mkPodRows_filter_eq]
      simp
    refine ⟨by rw [hrun], ?_⟩
    rw [hpods]
    exact ⟨rfl, Lemmas.mkPodRows_length appId pods 0,
      Lemmas.mkPodRows_display appId pods 0, Lemmas.mkPodRows_texts appId pods 0⟩

/-- Witness for C1 at a concrete request with 3 approved PODs against a
store already holding stale PODs for the same application. -/
theorem C1_commit_validation_witness :
    (saveProvisionalHandler saveReqEx dbEx).fst = 200 ∧
    podsFor 7 (saveProvisionalHandler saveReqEx dbEx).snd = mkPodRows 7 0 [podA, podB, podC] ∧
    (podsFor 7 (saveProvisionalHandler saveReqEx dbEx).snd).length = [podA, podB, podC].length ∧
    (podsFor 7 (saveProvisionalHandler saveReqEx dbEx).snd).map PodRow.display_order
      = List.range' 1 [podA, podB, podC].length ∧
    (podsFor 7 (saveProvisionalHandler saveReqEx dbEx).snd).map PodRow.pod_text
      = [podA, podB, podC].map PodInput.text :=
  (C1_commit_validation saveReqEx dbEx 7 [podA, podB, podC] rfl rfl rfl rfl).2
    (by decide)

/-- C2: after a successful commit the POD rows persisted for the
application are exactly the newly approved set — rows from any earlier
commit are gone — every persisted row has `user_approved = true`, and
re-running the same commit on the resulting state leaves the durable
state unchanged (replace-not-append, idempotent). -/
theorem C2_replace_semantics (req : SaveRequest) (db : DB) (appId : Nat)
    (pods : List PodInput)
    (hm : req.method = str "POST")
    (ha : req.applicationId = some appId)
    (hp : req.approvedPods = some pods)
    (hc : req.cpcPredictions.isSome = true)
    (h3 : 3 ≤ pods.length) :
    podsFor appId (saveProvisionalHandler req db).snd = mkPodRows appId 0 pods ∧
    (∀ r ∈ podsFor appId (saveProvisionalHandler req db).snd, r.user_approved = true) ∧
    (saveProvisionalHandler req (saveProvisionalHandler req db).snd).snd
      = (saveProvisionalHandler req db).snd := by
  obtain ⟨cpcs, hcp⟩ := Option.isSome_iff_exists.mp hc
  have h3' : ¬ pods.length < 3 := by omega
  have hrun : ∀ d : DB, (saveProvisionalHandler req d).snd
      = ⟨updateAppRows appId req d.applications,
         d.pod_definitions.filter (fun r => decide (r.application_id ≠ appId))
           ++ mkPodRows appId 0 pods⟩ := by
    intro d
    simp [saveProvisionalHandler, hm, ha, hp, hcp, h3']
  have hpods : podsFor appId (saveProvisionalHandler req db).snd = mkPodRows appId 0 pods := by
    rw [hrun db]
    simp only [podsFor, List.filter_append]
    rw [Lemmas.filter_eq_of_filter_ne, Lemmas.mkPodRows_filter_eq]
    simp
  refine ⟨hpods, ?_, ?_⟩
  · intro r hr
    rw [hpods] at hr
    exact Lemmas.mkPodRows_approved appId pods 0 r hr
  · rw [hrun db, hrun ⟨updateAppRows appId req db.applications,
      db.pod_definitions.filter (fun r => decide (r.application_id ≠ appId))
        ++ mkPodRows appId 0 pods⟩]
    simp only [List.filter_append, Lemmas.filter_ne_idem, Lemmas.mkPodRows_filter_ne,
      List.append_nil, Lemmas.updateAppRows_idem]

/-- Witness for C2 at the same concrete request and store. -/
theorem C2_replace_semantics_witness :
    podsFor 7 (saveProvisionalHandler saveReqEx dbEx).snd = mkPodRows 7 0 [podA, podB, podC] ∧
    (∀ r ∈ podsFor 7 (saveProvisionalHandler saveReqEx dbEx).snd, r.user_approved = true) ∧
    (saveProvisionalHandler saveReqEx (saveProvisionalHandler saveReqEx dbEx).snd).snd
      = (saveProvisionalHandler saveReqEx dbEx).snd :=
  C2_replace_semantics saveReqEx dbEx 7 [podA, podB, podC] rfl rfl rfl rfl (by decide)

namespace Lemmas

theorem dropLeadWS_length_le (s : JStr) : (dropLeadWS s).length ≤ s.length := by
  induction s with
  | nil => exact Nat.le_refl 0
  | cons c t ih =>
    by_cases h : isWS c = true
    · simp only [dropLeadWS, h, if_true]
      exact Nat.le_trans ih (Nat.le_succ _)
    · simp [dropLeadWS, h]

theorem jsTrim_length_le (s : JStr) : (jsTrim s).length ≤ s.length := by
  have h1 : (dropTrailWS (dropLeadWS s)).length ≤ (dropLeadWS s).length := by
    simpa [dropTrailWS] using dropLeadWS_length_le (dropLeadWS s).reverse
  exact Nat.le_trans h1 (dropLeadWS_length_le s)

end Lemmas

/-- C3: an upload whose extracted text is shorter than 100 characters is
rejected with a 400 before any external call: the blob store is not
written, no database insert happens, and — structurally, this route never
calls the classification service — no classification call occurs.  (The
source test is on the trimmed text, which only rejects more inputs than
the claim states.) -/
theorem C3_corpus_too_short (pdfParse : Option (JStr → Except JStr JStr))
    (req : UploadRequest) (file : FilePart) (text : JStr)
    (hm : req.method = str "POST")
    (hf : req.file = some file)
    (hsize : file.buffer.length ≤ 10 * 1024 * 1024)
    (hex : extractText pdfParse file = Except.ok text)
    (hshort : text.length < 100) :
    uploadProvisionalHandler pdfParse req
      = ⟨400, ⟨true, false, false, false⟩, none, none⟩ := by
  have hsize' : ¬ 10 * 1024 * 1024 < file.buffer.length := by omega
  have htrim : (jsTrim text).length < 100 :=
    Nat.lt_of_le_of_lt (Lemmas.jsTrim_length_le text) hshort
  simp [uploadProvisionalHandler, hm, hf, hsize', hex, htrim]

/-- Witness for C3: a 10-character plain-text upload is rejected with no
blob upload, no insert and no classification call. -/
theorem C3_corpus_too_short_witness :
    uploadProvisionalHandler none
      ⟨str "POST", some ⟨str "a.txt", str "short text", str "text/plain"⟩, none, str "true"⟩
      = ⟨400, ⟨true, false, false, false⟩, none, none⟩ :=
  C3_corpus_too_short none _ ⟨str "a.txt", str "short text", str "text/plain"⟩
    (str "short text") rfl rfl (by decide) rfl (by decide)

/-- C10: an upload whose file payload exceeds 10 * 1024 * 1024 bytes is
rejected with a 400 client error before any text extraction, blob-store
upload or database write takes place. -/
theorem C10_size_limit (pdfParse : Option (JStr → Except JStr JStr))
    (req : UploadRequest) (file : FilePart)
    (hm : req.method = str "POST")
    (hf : req.file = some file)
    (hsize : 10 * 1024 * 1024 < file.buffer.length) :
    uploadProvisionalHandler pdfParse req = ⟨400, noEffects, none, none⟩ := by
  simp [uploadProvisionalHandler, hm, hf, hsize]

/-- Witness for C10 at a 10 MiB + 1 byte payload: rejected with no effect
at all (in particular extraction was never attempted). -/
theorem C10_size_limit_witness :
    uploadProvisionalHandler none
      ⟨str "POST",
       some ⟨str "big.txt", List.replicate (10 * 1024 * 1024 + 1) 0, str "text/plain"⟩,
       none, str "true"⟩
      = ⟨400, noEffects, none, none⟩ :=
  C10_size_limit none _ ⟨str "big.txt", List.replicate (10 * 1024 * 1024 + 1) 0, str "text/plain"⟩
    rfl rfl (by rw [List.length_replicate]; omega)

/-- C6: on a successful upload the publication deadline is computed
exactly when the pre-filing flag (serialized `"true"`/`"false"` by the
client) is `"false"` and a filing date is present, and is null otherwise;
the computed deadline advances the month index by exactly 18 keeping the
day of month whenever that day exists in the target month (the JS
`setMonth` rolls an overflowing day forward instead). -/
theorem C6_publication_deadline (pdfParse : Option (JStr → Except JStr JStr))
    (req : UploadRequest) (file : FilePart) (text : JStr)
    (hm : req.method = str "POST")
    (hf : req.file = some file)
    (hsize : ¬ 10 * 1024 * 1024 < file.buffer.length)
    (hex : extractText pdfParse file = Except.ok text)
    (hlen : ¬ (jsTrim text).length < 100)
    (hflag : req.isPreFiling = str "true" ∨ req.isPreFiling = str "false") :
    (∀ fd : YMD, req.isPreFiling = str "false" → req.filingDate = some fd →
       (uploadProvisionalHandler pdfParse req).respDeadline
         = some (calculatePublicationDeadline fd) ∧
       (fd.d ≤ daysInMonth (fd.y + ((fd.m - 1) + 18) / 12) (((fd.m - 1) + 18) % 12) →
          calculatePublicationDeadline fd = plus18MonthsSpec fd)) ∧
    ((req.isPreFiling = str "true" ∨ req.filingDate = none) →
       (uploadProvisionalHandler pdfParse req).respDeadline = none) := by
  constructor
  · intro fd hpre hdate
    constructor
    · simp [uploadProvisionalHandler, hm, hf, hsize, hex, hlen, hpre, hdate]
    · intro hd
      simp [calculatePublicationDeadline, plus18MonthsSpec, hd]
  · intro hnull
    rcases hnull with hpre | hdate
    · have hne : req.isPreFiling ≠ str "false" := by
        rw [hpre]; decide
      simp [uploadProvisionalHandler, hm, hf, hsize, hex, hlen, hne]
    · rcases hflag with hpre | hpre
      · have hne : req.isPreFiling ≠ str "false" := by
          rw [hpre]; decide
        simp [uploadProvisionalHandler, hm, hf, hsize, hex, hlen, hne]
      · simp [uploadProvisionalHandler, hm, hf, hsize, hex, hlen, hpre, hdate]

/-- Witness for C6: filing date 2025-01-15, pre-filing false, on a
150-character plain-text upload yields deadline 2026-07-15 — exactly 18
calendar months later. -/
theorem C6_publication_deadline_witness :
    (uploadProvisionalHandler none
      ⟨str "POST",
       some ⟨str "inv.txt",
         str "A steering linkage in which a pivot offset creates a non-linear steering ratio between the input shaft and the road wheels of an agricultural vehicle.",
         str "text/plain"⟩,
       some ⟨2025, 1, 15⟩, str "false"⟩).respDeadline
      = some (calculatePublicationDeadline ⟨2025, 1, 15⟩) ∧
    calculatePublicationDeadline ⟨2025, 1, 15⟩ = plus18MonthsSpec ⟨2025, 1, 15⟩ ∧
    calculatePublicationDeadline ⟨2025, 1, 15⟩ = ⟨2026, 7, 15⟩ := by
  have h := C6_publication_deadline none
    ⟨str "POST",
     some ⟨str "inv.txt",
       str "A steering linkage in which a pivot offset creates a non-linear steering ratio between the input shaft and the road wheels of an agricultural vehicle.",
       str "text/plain"⟩,
     some ⟨2025, 1, 15⟩, str "false"⟩
    ⟨str "inv.txt",
     str "A steering linkage in which a pivot offset creates a non-linear steering ratio between the input shaft and the road wheels of an agricultural vehicle.",
     str "text/plain"⟩
    (str "A steering linkage in which a pivot offset creates a non-linear steering ratio between the input shaft and the road wheels of an agricultural vehicle.")
    rfl rfl (by decide) rfl (by decide) (Or.inr rfl)
  obtain ⟨h1, h2⟩ := (h.1 ⟨2025, 1, 15⟩ rfl rfl)
  exact ⟨h1, h2 (by decide), by decide⟩

/-- Counterexample to C5 as stated: an attachment whose media type and
extension match no supported strategy makes `extractText` throw the
`Unsupported file type` error — it does not return empty text. -/
theorem C5_counterexample :
    extractText none ⟨str "diagram.png", str "PNGDATA", str "image/png"⟩
      = Except.error (str "Unsupported file type. Please upload PDF or TXT file.") ∧
    extractText none ⟨str "diagram.png", str "PNGDATA", str "image/png"⟩
      ≠ Except.ok [] := by
  refine ⟨rfl, ?_⟩
  intro h
  rw [show extractText none ⟨str "diagram.png", str "PNGDATA", str "image/png"⟩
      = Except.error (str "Unsupported file type. Please upload PDF or TXT file.") from rfl] at h
  exact Except.noConfusion h

/-- C5 (amended): for every input whose declared media type and filename
extension match no supported strategy, extraction raises the unsupported
file-type error, which the route-level catch surfaces as a 500 failure of
the whole upload — one unsupported attachment does block the upload (no
blob write, no database write). -/
theorem C5_unsupported_raises (pdfParse : Option (JStr → Except JStr JStr))
    (req : UploadRequest) (file : FilePart)
    (hm : req.method = str "POST")
    (hf : req.file = some file)
    (hsize : ¬ 10 * 1024 * 1024 < file.buffer.length)
    (h1 : file.mimetype ≠ str "text/plain")
    (h2 : endsWith (str ".txt") file.filename = false)
    (h3 : file.mimetype ≠ str "application/pdf")
    (h4 : endsWith (str ".pdf") file.filename = false) :
    extractText pdfParse file
      = Except.error (str "Unsupported file type. Please upload PDF or TXT file.") ∧
    uploadProvisionalHandler pdfParse req = ⟨500, ⟨true, false, false, false⟩, none, none⟩ := by
  have hex : extractText pdfParse file
      = Except.error (str "Unsupported file type. Please upload PDF or TXT file.") := by
    simp [extractText, h1, h2, h3, h4]
  exact ⟨hex, by simp [uploadProvisionalHandler, hm, hf, hsize, hex]⟩

/-- Witness for the amended C5 at a PNG attachment. -/
theorem C5_unsupported_raises_witness :
    extractText none ⟨str "photo.png", str "BYTES", str "image/png"⟩
      = Except.error (str "Unsupported file type. Please upload PDF or TXT file.") ∧
    uploadProvisionalHandler none
      ⟨str "POST", some ⟨str "photo.png", str "BYTES", str "image/png"⟩, none, str "true"⟩
      = ⟨500, ⟨true, false, false, false⟩, none, none⟩ :=
  C5_unsupported_raises none _ ⟨str "photo.png", str "BYTES", str "image/png"⟩
    rfl rfl (by decide) (by decide) (by decide) (by decide) (by decide)

namespace Lemmas

theorem dropLeadWS_cons_ws (c : Nat) (s : JStr) (h : isWS c = true) :
    dropLeadWS (c :: s) = dropLeadWS s := by
  simp [dropLeadWS, h]

theorem dropLeadWS_cons_nonws (c : Nat) (s : JStr) (h : isWS c = false) :
    dropLeadWS (c :: s) = c :: s := by
  simp [dropLeadWS, h]

theorem dropTrailWS_append_ws (s : JStr) (c : Nat) (h : isWS c = true) :
    dropTrailWS (s ++ [c]) = dropTrailWS s := by
  simp [dropTrailWS, List.reverse_append, dropLeadWS_cons_ws c s.reverse h]

theorem dropTrailWS_append_nonws (s : JStr) (c : Nat) (h : isWS c = false) :
    dropTrailWS (s ++ [c]) = s ++ [c] := by
  simp [dropTrailWS, List.reverse_append, dropLeadWS_cons_nonws c s.reverse h]

theorem jsTrim_cons_ws (c : Nat) (s : JStr) (h : isWS c = true) :
    jsTrim (c :: s) = jsTrim s := by
  simp [jsTrim, dropLeadWS_cons_ws c s h]

theorem jsTrim_append_ws (s : JStr) (c : Nat) (h : isWS c = true) :
    jsTrim (s ++ [c]) = jsTrim s := by
  induction s with
  | nil =>
    simp [jsTrim, dropLeadWS, dropTrailWS, h]
  | cons a t ih =>
    by_cases ha : isWS a = true
    · rw [List.cons_append, jsTrim_cons_ws a (t ++ [c]) ha, ih, jsTrim_cons_ws a t ha]
    · have ha' : isWS a = false := by
        revert ha
        cases isWS a <;> simp
      rw [List.cons_append]
      show dropTrailWS (dropLeadWS (a :: (t ++ [c]))) = dropTrailWS (dropLeadWS (a :: t))
      rw [dropLeadWS_cons_nonws a (t ++ [c]) ha', dropLeadWS_cons_nonws a t ha',
        ← List.cons_append, dropTrailWS_append_ws (a :: t) c h]

theorem jsTrim_eq_self_of (c d : Nat) (mid : JStr) (hc : isWS c = false)
    (hd : isWS d = false) :
    jsTrim (c :: (mid ++ [d])) = c :: (mid ++ [d]) := by
  show dropTrailWS (dropLeadWS (c :: (mid ++ [d]))) = c :: (mid ++ [d])
  rw [dropLeadWS_cons_nonws c (mid ++ [d]) hc, ← List.cons_append,
    dropTrailWS_append_nonws (c :: mid) d hd, List.cons_append]

theorem dropLeadWS_idem (s : JStr) : dropLeadWS (dropLeadWS s) = dropLeadWS s := by
  induction s with
  | nil => rfl
  | cons c t ih =>
    by_cases h : isWS c = true
    · rw [dropLeadWS_cons_ws c t h, ih]
    · have h' : isWS c = false := by
        revert h
        cases isWS c <;> simp
      rw [dropLeadWS_cons_nonws c t h', dropLeadWS_cons_nonws c t h']

theorem dropTrailWS_idem (s : JStr) : dropTrailWS (dropTrailWS s) = dropTrailWS s := by
  simp [dropTrailWS, List.reverse_reverse, dropLeadWS_idem]

theorem dropLeadWS_suffix (s : JStr) : dropLeadWS s <:+ s := by
  induction s with
  | nil => exact List.suffix_refl []
  | cons c t ih =>
    by_cases h : isWS c = true
    · rw [dropLeadWS_cons_ws c t h]
      exact ih.trans (List.suffix_cons c t)
    · have h' : isWS c = false := by
        revert h
        cases isWS c <;> simp
      rw [dropLeadWS_cons_nonws c t h']

theorem dropTrailWS_front (s : JStr) : dropTrailWS s <+: s := by
  have h := dropLeadWS_suffix s.reverse
  have h2 : (dropLeadWS s.reverse).reverse <+: s.reverse.reverse :=
    List.reverse_prefix.mpr h
  simpa [List.reverse_reverse] using h2

theorem dropLeadWS_of_front (q r : JStr) (hq : dropLeadWS q = q) (hr : r <+: q) :
    dropLeadWS r = r := by
  cases r with
  | nil => rfl
  | cons c r2 =>
    cases q with
    | nil =>
      have := List.prefix_nil.mp hr
      exact absurd this (by simp)
    | cons d t =>
      obtain ⟨u, hu⟩ := hr
      rw [List.cons_append] at hu
      have hcd : c = d := by
        injection hu with h1 h2
      have hd : isWS d = false := by
        by_cases hws : isWS d = true
        · exfalso
          rw [dropLeadWS_cons_ws d t hws] at hq
          have hlen := dropLeadWS_length_le t
          have : (dropLeadWS t).length = t.length + 1 := by
            rw [hq]
            rfl
          omega
        · revert hws
          cases isWS d <;> simp
      rw [hcd]
      exact dropLeadWS_cons_nonws d r2 hd

theorem jsTrim_idem (s : JStr) : jsTrim (jsTrim s) = jsTrim s := by
  show dropTrailWS (dropLeadWS (dropTrailWS (dropLeadWS s))) = dropTrailWS (dropLeadWS s)
  rw [dropLeadWS_of_front (dropLeadWS s) (dropTrailWS (dropLeadWS s))
    (dropLeadWS_idem s) (dropTrailWS_front (dropLeadWS s)),
    dropTrailWS_idem]

theorem startsWith_json_mono (s : JStr) (h : startsWith (str "```json") s = true) :
    startsWith (str "```") s = true := by
  rcases s with _ | ⟨a, _ | ⟨b, _ | ⟨c, t⟩⟩⟩ <;>
    simp_all [startsWith, str, List.isPrefixOf]
  omega

end Lemmas

/-- Counterexample to C8 as stated: a payload carrying only a leading
fence marker and no trailing one still gets the leading marker stripped —
the two markers are not stripped "only when both are present", and a
half-fenced payload is not passed through unchanged. -/
theorem C8_counterexample :
    stripMarkdownCodeBlocks (str "```abc") = str "abc" ∧
    jsTrim (str "```abc") = str "```abc" ∧
    str "abc" ≠ str "```abc" := by
  decide

/-- C8 (amended): sanitization strips a single leading fence marker and a
single trailing fence marker independently — each whenever present,
whether or not the other is.  Consequently a payload wrapped in
decorative fencing sanitizes to exactly the trimmed bare payload (so it
parses identically to the unfenced payload), and a payload carrying no
fence marker at either end passes through unchanged apart from
surrounding whitespace. -/
theorem C8_fence_stripping (p : JStr)
    (h1 : startsWith (str "```") (jsTrim p) = false)
    (h2 : endsWith (str "```") (jsTrim p) = false) :
    stripMarkdownCodeBlocks (str "```json" ++ (10 :: p) ++ (10 :: str "```")) = jsTrim p ∧
    stripMarkdownCodeBlocks p = jsTrim p := by
  constructor
  · have hshape : str "```json" ++ (10 :: p) ++ (10 :: str "```")
        = 96 :: ((96 :: 96 :: 106 :: 115 :: 111 :: 110 :: 10 :: (p ++ [10, 96, 96])) ++ [96]) := by
      simp [str, List.cons_append, List.append_assoc]
    have htrim1 : jsTrim (str "```json" ++ (10 :: p) ++ (10 :: str "```"))
        = str "```json" ++ (10 :: p) ++ (10 :: str "```") := by
      rw [hshape]
      exact Lemmas.jsTrim_eq_self_of 96 96 _ (by decide) (by decide)
    have hw : str "```json" ++ (10 :: p) ++ (10 :: str "```")
        = str "```json" ++ (10 :: (p ++ [10, 96, 96, 96])) := by
      simp [str, List.cons_append, List.append_assoc]
    have hpre : startsWith (str "```json") (str "```json" ++ (10 :: p) ++ (10 :: str "```")) = true := by
      rw [hw]
      simp [startsWith, str, List.isPrefixOf]
    have hdrop : (str "```json" ++ (10 :: p) ++ (10 :: str "```")).drop 7
        = 10 :: (p ++ [10, 96, 96, 96]) := by
      rw [hw]
      rfl
    have hsuf : endsWith (str "```") (10 :: (p ++ [10, 96, 96, 96])) = true := by
      simp [endsWith, str, List.reverse_cons, List.reverse_append, List.isPrefixOf,
        List.append_assoc]
    have htake : (10 :: (p ++ [10, 96, 96, 96])).take
        ((10 :: (p ++ [10, 96, 96, 96])).length - 3) = 10 :: (p ++ [10]) := by
      have hlen : (10 :: (p ++ [10, 96, 96, 96])).length - 3 = (10 :: p).length + 1 := by
        simp
      rw [hlen, show (10 : Nat) :: (p ++ [10, 96, 96, 96]) = (10 :: p) ++ [10, 96, 96, 96] by
        simp [List.cons_append]]
      rw [List.take_append]
      rfl
    show jsTrim _ = jsTrim p
    rw [htrim1, hpre]
    simp only [if_true]
    rw [hdrop, hsuf]
    simp only [if_true]
    rw [htake, Lemmas.jsTrim_cons_ws 10 (p ++ [10]) (by decide),
      Lemmas.jsTrim_append_ws p 10 (by decide)]
  · have hjson : startsWith (str "```json") (jsTrim p) = false := by
      by_cases h : startsWith (str "```json") (jsTrim p) = true
      · exact absurd (Lemmas.startsWith_json_mono (jsTrim p) h) (by simp [h1])
      · revert h
        cases startsWith (str "```json") (jsTrim p) <;> simp
    show jsTrim _ = jsTrim p
    rw [hjson]
    simp only [if_false, Bool.false_eq_true]
    rw [h1]
    simp only [if_false, Bool.false_eq_true]
    rw [h2]
    simp only [if_false, Bool.false_eq_true]
    exact Lemmas.jsTrim_idem p

/-- Witness for the amended C8 at a concrete JSON-looking payload. -/
theorem C8_fence_stripping_witness :
    stripMarkdownCodeBlocks
      (str "```json" ++ (10 :: str "[1, 2]") ++ (10 :: str "```")) = jsTrim (str "[1, 2]") ∧
    stripMarkdownCodeBlocks (str "[1, 2]") = jsTrim (str "[1, 2]") :=
  C8_fence_stripping (str "[1, 2]") (by decide) (by decide)

namespace Lemmas

theorem attrMatchAt_succ (pat : JStr) (c : Nat) (t : JStr) (i : Nat) :
    attrMatchAt pat (c :: t) (i + 1) ↔ attrMatchAt pat t i := by
  simp [attrMatchAt, List.drop_succ_cons]

theorem matchAttr_cons (pat : JStr) (c : Nat) (t : JStr) :
    matchAttr pat (c :: t) =
      if pat.isPrefixOf (c :: t) then
        if ((c :: t).drop pat.length).takeWhile (fun x => x ≠ 34) ≠ [] ∧
            (((c :: t).drop pat.length).takeWhile (fun x => x ≠ 34)).length
              < ((c :: t).drop pat.length).length
        then some (((c :: t).drop pat.length).takeWhile (fun x => x ≠ 34))
        else matchAttr pat t
      else matchAttr pat t := rfl

theorem matchAttr_isSome_iff (pat : JStr) (hpat : pat ≠ []) :
    ∀ s, (matchAttr pat s).isSome = true ↔ ∃ i, attrMatchAt pat s i := by
  intro s
  induction s with
  | nil =>
    constructor
    · intro h
      simp [matchAttr] at h
    · rintro ⟨i, h1, h2, h3⟩
      rw [List.drop_nil] at h1
      cases pat with
      | nil => exact absurd rfl hpat
      | cons p pt => simp [List.isPrefixOf] at h1
  | cons c t ih =>
    by_cases hpre : pat.isPrefixOf (c :: t) = true
    · by_cases hcond : ((c :: t).drop pat.length).takeWhile (fun x => x ≠ 34) ≠ [] ∧
          (((c :: t).drop pat.length).takeWhile (fun x => x ≠ 34)).length
            < ((c :: t).drop pat.length).length
      · constructor
        · intro _
          refine ⟨0, ?_⟩
          simp only [attrMatchAt, List.drop_zero]
          exact ⟨hpre, hcond.1, hcond.2⟩
        · intro _
          rw [matchAttr_cons, if_pos hpre, if_pos hcond]
          rfl
      · have hstep : matchAttr pat (c :: t) = matchAttr pat t := by
          rw [matchAttr_cons, if_pos hpre, if_neg hcond]
        rw [hstep, ih]
        constructor
        · rintro ⟨i, hi⟩
          exact ⟨i + 1, (attrMatchAt_succ pat c t i).mpr hi⟩
        · rintro ⟨i, hi⟩
          cases i with
          | zero =>
            simp only [attrMatchAt, List.drop_zero] at hi
            exact absurd ⟨hi.2.1, hi.2.2⟩ hcond
          | succ j => exact ⟨j, (attrMatchAt_succ pat c t j).mp hi⟩
    · have hstep : matchAttr pat (c :: t) = matchAttr pat t := by
        rw [matchAttr_cons, if_neg (by simpa using hpre)]
      rw [hstep, ih]
      constructor
      · rintro ⟨i, hi⟩
        exact ⟨i + 1, (attrMatchAt_succ pat c t i).mpr hi⟩
      · rintro ⟨i, hi⟩
        cases i with
        | zero =>
          simp only [attrMatchAt, List.drop_zero] at hi
          exact absurd hi.1 hpre
        | succ j => exact ⟨j, (attrMatchAt_succ pat c t j).mp hi⟩

theorem objSet_append {V : Type} (k : JStr) (v : V) (l : List (JStr × V))
    (h : k ∉ l.map Prod.fst) : objSet k v l = l ++ [(k, v)] := by
  induction l with
  | nil => rfl
  | cons p rest ih =>
    rcases p with ⟨k2, v2⟩
    simp only [List.map_cons, List.mem_cons, not_or] at h
    have hne : ¬ k2 = k := fun he => h.1 (he.symm)
    simp only [objSet, if_neg hne, List.cons_append]
    rw [ih h.2]

theorem parseFormDataLoop_spec (parts : List JStr) :
    ∀ fd fl,
      (∀ k ∈ fd.map Prod.fst, k ∉ (parts.filterMap fieldEntry).map Prod.fst) →
      (∀ k ∈ fl.map Prod.fst, k ∉ (parts.filterMap fileEntry).map Prod.fst) →
      ((parts.filterMap fieldEntry).map Prod.fst).Nodup →
      ((parts.filterMap fileEntry).map Prod.fst).Nodup →
      parseFormDataLoop parts (fd, fl)
        = (fd ++ parts.filterMap fieldEntry, fl ++ parts.filterMap fileEntry) := by
  induction parts with
  | nil =>
    intro fd fl _ _ _ _
    simp [parseFormDataLoop]
  | cons p ps ih =>
    intro fd fl hfd hfl hn1 hn2
    cases hc : classifyPart p with
    | skip =>
      have he1 : fieldEntry p = none := by simp [fieldEntry, hc]
      have he2 : fileEntry p = none := by simp [fileEntry, hc]
      rw [List.filterMap_cons_none he1] at hfd hn1 ⊢
      rw [List.filterMap_cons_none he2] at hfl hn2 ⊢
      rw [show parseFormDataLoop (p :: ps) (fd, fl) = parseFormDataLoop ps (fd, fl) by
        simp [parseFormDataLoop, hc]]
      exact ih fd fl hfd hfl hn1 hn2
    | field n b =>
      have he1 : fieldEntry p = some (n, b) := by simp [fieldEntry, hc]
      have he2 : fileEntry p = none := by simp [fileEntry, hc]
      rw [List.filterMap_cons_some he1] at hfd hn1 ⊢
      rw [List.filterMap_cons_none he2] at hfl hn2 ⊢
      rw [List.map_cons] at hn1
      have hsplit := List.nodup_cons.mp hn1
      have hn_tail : n ∉ (ps.filterMap fieldEntry).map Prod.fst := hsplit.1
      have hnodup_tail : ((ps.filterMap fieldEntry).map Prod.fst).Nodup := hsplit.2
      have hn_not : n ∉ fd.map Prod.fst := by
        intro hmem
        exact hfd n hmem (by simp)
      rw [show parseFormDataLoop (p :: ps) (fd, fl) = parseFormDataLoop ps (objSet n b fd, fl) by
        simp [parseFormDataLoop, hc]]
      rw [objSet_append n b fd hn_not]
      rw [ih (fd ++ [(n, b)]) fl ?ha ?hb hnodup_tail hn2]
      · simp
      case ha =>
        intro k hk
        rw [List.map_append, List.mem_append] at hk
        rcases hk with hk | hk
        · intro hbad
          exact hfd k hk (by simp [hbad])
        · simp at hk
          rw [hk]
          exact hn_tail
      case hb =>
        intro k hk
        exact hfl k hk
    | file n f =>
      have he1 : fieldEntry p = none := by simp [fieldEntry, hc]
      have he2 : fileEntry p = some (n, f) := by simp [fileEntry, hc]
      rw [List.filterMap_cons_none he1] at hfd hn1 ⊢
      rw [List.filterMap_cons_some he2] at hfl hn2 ⊢
      rw [List.map_cons] at hn2
      have hsplit := List.nodup_cons.mp hn2
      have hn_tail : n ∉ (ps.filterMap fileEntry).map Prod.fst := hsplit.1
      have hnodup_tail : ((ps.filterMap fileEntry).map Prod.fst).Nodup := hsplit.2
      have hn_not : n ∉ fl.map Prod.fst := by
        intro hmem
        exact hfl n hmem (by simp)
      rw [show parseFormDataLoop (p :: ps) (fd, fl) = parseFormDataLoop ps (fd, objSet n f fl) by
        simp [parseFormDataLoop, hc]]
      rw [objSet_append n f fl hn_not]
      rw [ih fd (fl ++ [(n, f)]) ?hc2 ?hd hn1 hnodup_tail]
      · simp
      case hc2 =>
        intro k hk
        exact hfd k hk
      case hd =>
        intro k hk
        rw [List.map_append, List.mem_append] at hk
        rcases hk with hk | hk
        · intro hbad
          exact hfl k hk (by simp [hbad])
        · simp at hk
          rw [hk]
          exact hn_tail

end Lemmas

/-- Counterexample to C4 as stated: a segment whose filename attribute is
the empty string (`filename=""`) carries a filename attribute in the
spec's sense, yet the loop classifies it as a plain field, because the
source regex `/filename="([^"]+)"/` requires a non-empty capture. -/
theorem C4_counterexample :
    classifyPart
        (str "Content-Disposition: form-data; name=\"a\"; filename=\"\"\r\n\r\nx\r\n")
      = PartClass.field (str "a") (str "x") ∧
    hasFilenameAttrSpec
        (str "Content-Disposition: form-data; name=\"a\"; filename=\"\"\r\n\r\nx\r\n")
      = true := by
  decide

/-- C4 (amended): a multipart body segment (with a `Content-Disposition`
header and a parsable `name` attribute) is classified as a file
attachment if and only if it carries a filename attribute with a
non-empty value — a segment whose filename attribute is the empty string
is classified as a plain field — and the parsed fields and files are
collected in original segment order (stated for segment lists without
duplicate field names, where the JS objects keep first-insertion
order). -/
theorem C4_part_classification :
    (∀ part, (∃ nm f, classifyPart part = PartClass.file nm f) ↔
       (isSubstring (str "Content-Disposition") part = true ∧
        (matchAttr (str "name=\"") part).isSome = true ∧
        ∃ i, attrMatchAt (str "filename=\"") part i)) ∧
    (∀ parts : List JStr,
       ((parts.filterMap fieldEntry).map Prod.fst).Nodup →
       ((parts.filterMap fileEntry).map Prod.fst).Nodup →
       parseFormData parts = (parts.filterMap fieldEntry, parts.filterMap fileEntry)) := by
  constructor
  · intro part
    by_cases hcd : isSubstring (str "Content-Disposition") part = true
    · cases hnm : matchAttr (str "name=\"") part with
      | none =>
        constructor
        · rintro ⟨nm, f, hf⟩
          simp [classifyPart, hcd, hnm] at hf
        · rintro ⟨_, hsome, _⟩
          exact Bool.noConfusion hsome
      | some nm0 =>
        cases hfn : matchAttr (str "filename=\"") part with
        | none =>
          constructor
          · rintro ⟨nm, f, hf⟩
            simp [classifyPart, hcd, hnm, hfn] at hf
          · rintro ⟨_, _, hex⟩
            have := (Lemmas.matchAttr_isSome_iff (str "filename=\"") (by decide) part).mpr hex
            rw [hfn] at this
            exact Bool.noConfusion this
        | some fn =>
          constructor
          · intro _
            refine ⟨hcd, rfl, ?_⟩
            exact (Lemmas.matchAttr_isSome_iff (str "filename=\"") (by decide) part).mp
              (by rw [hfn]; rfl)
          · intro _
            refine ⟨nm0, ⟨fn, partContent part, partMimetype part⟩, ?_⟩
            simp [classifyPart, hcd, hnm, hfn]
    · constructor
      · rintro ⟨nm, f, hf⟩
        simp [classifyPart, hcd] at hf
      · rintro ⟨hcd2, _, _⟩
        exact absurd hcd2 hcd
  · intro parts h1 h2
    have := Lemmas.parseFormDataLoop_spec parts [] []
      (by intro k hk; cases hk) (by intro k hk; cases hk) h1 h2
    simpa [parseFormData] using this

/-- Witness for C4 at a concrete two-segment body: one plain field and
one file attachment with a non-empty filename, parsed in order. -/
theorem C4_part_classification_witness :
    parseFormData [segFieldEx, segFileEx]
      = ([segFieldEx, segFileEx].filterMap fieldEntry,
         [segFieldEx, segFileEx].filterMap fileEntry) ∧
    (isSubstring (str "Content-Disposition") segFileEx = true ∧
     (matchAttr (str "name=\"") segFileEx).isSome = true ∧
     ∃ i, attrMatchAt (str "filename=\"") segFileEx i) :=
  ⟨C4_part_classification.2 [segFieldEx, segFileEx] (by decide) (by decide),
   (C4_part_classification.1 segFileEx).mp
     ⟨str "file", ⟨str "a.txt", str "hello", str "text/plain"⟩, by decide⟩⟩

namespace Lemmas

theorem lowerChar_lowerChar (c : Nat) : lowerChar (lowerChar c) = lowerChar c := by
  unfold lowerChar
  split_ifs <;> omega

theorem lowerChar_upperChar (c : Nat) : lowerChar (upperChar c) = lowerChar c := by
  unfold lowerChar upperChar
  split_ifs <;> omega

theorem upperChar_upperChar (c : Nat) : upperChar (upperChar c) = upperChar c := by
  unfold upperChar
  split_ifs <;> omega

theorem lowerChar_lowerChar_comp (c : Nat) : lowerChar (lowerChar c) = lowerChar c :=
  lowerChar_lowerChar c

theorem upperChar_eq_space_iff (c : Nat) : upperChar c = 32 ↔ c = 32 := by
  unfold upperChar
  split_ifs <;> omega

theorem lowerChar_eq_space_iff (c : Nat) : lowerChar c = 32 ↔ c = 32 := by
  unfold lowerChar
  split_ifs <;> omega

theorem upperChar_no_sep (c : Nat) (h45 : c ≠ 45) (h95 : c ≠ 95) :
    upperChar c ≠ 45 ∧ upperChar c ≠ 95 := by
  unfold upperChar
  split_ifs <;> omega

theorem lowerChar_no_sep (c : Nat) (h45 : c ≠ 45) (h95 : c ≠ 95) :
    lowerChar c ≠ 45 ∧ lowerChar c ≠ 95 := by
  unfold lowerChar
  split_ifs <;> omega

theorem tcScan_length (s : JStr) : ∀ b, (tcScan b s).length = s.length := by
  induction s with
  | nil => intro b; rfl
  | cons c t ih =>
    intro b
    by_cases hc : c = 32 <;> simp [tcScan, hc, ih]

theorem tcScan_take (s : JStr) : ∀ b n, tcScan b (s.take n) = (tcScan b s).take n := by
  induction s with
  | nil => intro b n; simp [tcScan]
  | cons c t ih =>
    intro b n
    cases n with
    | zero => simp [tcScan]
    | succ m =>
      by_cases hc : c = 32 <;> simp [tcScan, hc, ih]

theorem tcScan_cons_space (b : Bool) (t : JStr) :
    tcScan b (32 :: t) = 32 :: tcScan true t := by
  simp [tcScan]

theorem tcScan_cons_true (c : Nat) (t : JStr) (h : c ≠ 32) :
    tcScan true (c :: t) = upperChar c :: tcScan false t := by
  simp [tcScan, h]

theorem tcScan_cons_false (c : Nat) (t : JStr) (h : c ≠ 32) :
    tcScan false (c :: t) = lowerChar c :: tcScan false t := by
  simp [tcScan, h]

theorem tcScan_idem (s : JStr) : ∀ b, tcScan b (tcScan b s) = tcScan b s := by
  induction s with
  | nil => intro b; rfl
  | cons c t ih =>
    intro b
    by_cases hc : c = 32
    · subst hc
      rw [tcScan_cons_space b t, tcScan_cons_space b (tcScan true t), ih true]
    · cases b with
      | true =>
        have hne : upperChar c ≠ 32 := fun h => hc ((upperChar_eq_space_iff c).mp h)
        rw [tcScan_cons_true c t hc, tcScan_cons_true (upperChar c) (tcScan false t) hne,
          upperChar_upperChar, ih false]
      | false =>
        have hne : lowerChar c ≠ 32 := fun h => hc ((lowerChar_eq_space_iff c).mp h)
        rw [tcScan_cons_false c t hc, tcScan_cons_false (lowerChar c) (tcScan false t) hne,
          lowerChar_lowerChar, ih false]

theorem tcScan_map_lower (s : JStr) : ∀ b, (tcScan b s).map lowerChar = s.map lowerChar := by
  induction s with
  | nil => intro b; rfl
  | cons c t ih =>
    intro b
    by_cases hc : c = 32
    · simp [tcScan, hc, ih]
    · cases b with
      | true => simp [tcScan, hc, ih, lowerChar_upperChar]
      | false => simp [tcScan, hc, ih, lowerChar_lowerChar]

theorem splitCh_ne_nil (sep : Nat) (s : JStr) : splitCh sep s ≠ [] := by
  induction s with
  | nil => simp [splitCh]
  | cons c cs ih =>
    rcases h : splitCh sep cs with _ | ⟨w, ws⟩
    · exact absurd h ih
    · by_cases hcs : c = sep <;> simp [splitCh, h, hcs]

theorem tc_eq_scan_aux (s : JStr) :
    joinCh 32 ((splitCh 32 s).map tcWord) = tcScan true s ∧
    (∀ w ws, splitCh 32 s = w :: ws →
       tcScan false s = w.map lowerChar ++ tcJoinRest ws) := by
  induction s with
  | nil =>
    refine ⟨rfl, ?_⟩
    intro w ws h
    simp only [splitCh] at h
    injection h with h1 h2
    subst h1
    subst h2
    rfl
  | cons c t ih =>
    obtain ⟨ihP, ihQ⟩ := ih
    rcases hW : splitCh 32 t with _ | ⟨w0, ws0⟩
    · exact absurd hW (splitCh_ne_nil 32 t)
    constructor
    · by_cases hc : c = 32
      · subst hc
        rw [show splitCh 32 (32 :: t) = [] :: w0 :: ws0 by simp [splitCh, hW]]
        rw [show tcScan true (32 :: t) = 32 :: tcScan true t by simp [tcScan]]
        rw [show joinCh 32 ((([] : JStr) :: w0 :: ws0).map tcWord)
            = 32 :: joinCh 32 ((w0 :: ws0).map tcWord) from rfl]
        rw [← hW, ihP]
      · rw [show splitCh 32 (c :: t) = (c :: w0) :: ws0 by simp [splitCh, hW, hc]]
        rw [show tcScan true (c :: t) = upperChar c :: tcScan false t by simp [tcScan, hc]]
        rw [ihQ w0 ws0 hW]
        cases ws0 with
        | nil =>
          simp only [List.map_cons, List.map_nil, joinCh, tcWord, tcJoinRest]
          simp
        | cons x xs =>
          simp only [List.map_cons, joinCh, tcWord, tcJoinRest]
          simp [List.cons_append]
    · intro w ws h
      by_cases hc : c = 32
      · subst hc
        rw [show splitCh 32 (32 :: t) = [] :: w0 :: ws0 by simp [splitCh, hW]] at h
        injection h with h1 h2
        subst h1
        subst h2
        rw [show tcScan false (32 :: t) = 32 :: tcScan true t from tcScan_cons_space false t]
        rw [← ihP, hW]
        rfl
      · rw [show splitCh 32 (c :: t) = (c :: w0) :: ws0 by simp [splitCh, hW, hc]] at h
        injection h with h1 h2
        subst h1
        subst h2
        rw [show tcScan false (c :: t) = lowerChar c :: tcScan false t by simp [tcScan, hc]]
        rw [ihQ w0 ws0 hW]
        simp

theorem titleCaseStr_eq_tcScan (s : JStr) : titleCaseStr s = tcScan true s :=
  (tc_eq_scan_aux s).1

theorem titleCaseStr_length (s : JStr) : (titleCaseStr s).length = s.length := by
  rw [titleCaseStr_eq_tcScan, tcScan_length]

theorem titleCaseStr_map_lower (s : JStr) :
    (titleCaseStr s).map lowerChar = s.map lowerChar := by
  rw [titleCaseStr_eq_tcScan, tcScan_map_lower]

theorem titleCaseStr_idem_take (s : JStr) :
    titleCaseStr ((titleCaseStr s).take 200) = (titleCaseStr s).take 200 := by
  rw [titleCaseStr_eq_tcScan, titleCaseStr_eq_tcScan, ← tcScan_take, tcScan_idem]

theorem isSubstring_nil_left (h : JStr) : isSubstring [] h = true := by
  induction h with
  | nil => rfl
  | cons c t ih => simp [isSubstring, List.isPrefixOf]

theorem isSubstring_append (n a b : JStr) (h : isSubstring n a = true) :
    isSubstring n (a ++ b) = true := by
  induction a with
  | nil =>
    have : n = [] := by
      simpa [isSubstring, List.isEmpty_iff] using h
    rw [this, isSubstring_nil_left]
  | cons c t ih =>
    simp only [isSubstring, Bool.or_eq_true] at h
    rcases h with h | h
    · have hp : n <+: (c :: t) := List.isPrefixOf_iff_prefix.mp h
      have hp2 : n <+: (c :: t) ++ b := hp.trans (List.prefix_append (c :: t) b)
      rw [List.cons_append]
      simp only [isSubstring, Bool.or_eq_true]
      left
      rw [List.isPrefixOf_iff_prefix]
      rwa [List.cons_append] at hp2
    · rw [List.cons_append]
      simp only [isSubstring, Bool.or_eq_true]
      right
      exact ih h

theorem isSubstring_take (n s : JStr) (k : Nat) (h : isSubstring n (s.take k) = true) :
    isSubstring n s = true := by
  have h2 := isSubstring_append n (s.take k) (s.drop k) h
  rwa [List.take_append_drop] at h2

theorem replaceSeps_no_sep (s : JStr) : ∀ c ∈ replaceSeps s, c ≠ 45 ∧ c ≠ 95 := by
  intro c hc
  rw [replaceSeps, List.mem_map] at hc
  obtain ⟨x, _, hx⟩ := hc
  by_cases hsep : x = 45 ∨ x = 95
  · rw [if_pos hsep] at hx
    omega
  · rw [if_neg hsep] at hx
    omega

theorem tcScan_no_sep (s : JStr) :
    ∀ b, (∀ c ∈ s, c ≠ 45 ∧ c ≠ 95) → ∀ c ∈ tcScan b s, c ≠ 45 ∧ c ≠ 95 := by
  induction s with
  | nil => intro b _ c hc; cases hc
  | cons a t ih =>
    intro b h c hc
    have ha := h a (by simp)
    have ht : ∀ c ∈ t, c ≠ 45 ∧ c ≠ 95 := fun x hx => h x (by simp [hx])
    by_cases hsp : a = 32
    · rw [show tcScan b (a :: t) = 32 :: tcScan true t by simp [tcScan, hsp]] at hc
      rcases List.mem_cons.mp hc with hc | hc
      · omega
      · exact ih true ht c hc
    · cases b with
      | true =>
        rw [show tcScan true (a :: t) = upperChar a :: tcScan false t by
          simp [tcScan, hsp]] at hc
        rcases List.mem_cons.mp hc with hc | hc
        · rw [hc]
          exact upperChar_no_sep a ha.1 ha.2
        · exact ih false ht c hc
      | false =>
        rw [show tcScan false (a :: t) = lowerChar a :: tcScan false t by
          simp [tcScan, hsp]] at hc
        rcases List.mem_cons.mp hc with hc | hc
        · rw [hc]
          exact lowerChar_no_sep a ha.1 ha.2
        · exact ih false ht c hc

theorem replaceSeps_eq_self (s : JStr) (h : ∀ c ∈ s, c ≠ 45 ∧ c ≠ 95) :
    replaceSeps s = s := by
  induction s with
  | nil => rfl
  | cons c t ih =>
    have hc := h c (by simp)
    have ht : ∀ x ∈ t, x ≠ 45 ∧ x ≠ 95 := fun x hx => h x (by simp [hx])
    simp only [replaceSeps, List.map_cons]
    rw [if_neg (by omega : ¬ (c = 45 ∨ c = 95))]
    have := ih ht
    rw [replaceSeps] at this
    rw [this]

end Lemmas

/-- Counterexample to C9 as stated: the filename `abc.txt.txt` has an
accepted filename-derived candidate (`abc.txt`: not generic, 7 ≥ 5
characters), and derives the title `Abc.txt`; re-running the derivation
on `Abc.txt` strips its `.txt` extension, leaving `Abc` (3 < 5), falls
back to the text scan and returns a different title. -/
theorem C9_counterexample :
    isGeneric (replaceSeps (stripExt (str "abc.txt.txt"))) = false ∧
    5 ≤ (replaceSeps (stripExt (str "abc.txt.txt"))).length ∧
    generateTitle (str "abc.txt.txt") (str "A machine for folding paper")
      = str "Abc.txt" ∧
    generateTitle (str "Abc.txt") (str "A machine for folding paper")
      = str "A Machine For Folding Paper" ∧
    str "A Machine For Folding Paper" ≠ str "Abc.txt" := by
  decide

/-- C9 (amended): title derivation is idempotent for every filename whose
filename-derived candidate is accepted (not matching the generic denylist
and at least 5 characters) provided the derived title itself does not end
in a `.pdf`/`.txt` extension: re-running the derivation with the derived
title in place of the filename yields the same title unchanged. -/
theorem C9_title_round_trip (filename text : JStr)
    (hg : isGeneric (replaceSeps (stripExt filename)) = false)
    (hl : 5 ≤ (replaceSeps (stripExt filename)).length)
    (he : hasExtSuffix (generateTitle filename text) = false) :
    generateTitle (generateTitle filename text) text = generateTitle filename text := by
  have hcond1 : ¬ (isGeneric (replaceSeps (stripExt filename)) = true ∨
      (replaceSeps (stripExt filename)).length < 5) := by
    rintro (h | h)
    · rw [hg] at h
      exact Bool.noConfusion h
    · omega
  have hlen1 : ¬ ((titleCaseStr (replaceSeps (stripExt filename))).take 200).length < 5 := by
    rw [List.length_take, Lemmas.titleCaseStr_length]
    omega
  have hT1 : generateTitle filename text
      = (titleCaseStr (replaceSeps (stripExt filename))).take 200 := by
    simp only [generateTitle]
    rw [if_neg hcond1, if_neg hlen1]
  rw [hT1] at he ⊢
  have hnosep : ∀ c ∈ (titleCaseStr (replaceSeps (stripExt filename))).take 200,
      c ≠ 45 ∧ c ≠ 95 := by
    intro c hc
    have hc2 : c ∈ titleCaseStr (replaceSeps (stripExt filename)) :=
      List.take_subset 200 _ hc
    rw [Lemmas.titleCaseStr_eq_tcScan] at hc2
    exact Lemmas.tcScan_no_sep _ true (Lemmas.replaceSeps_no_sep _) c hc2
  have hstrip2 : stripExt ((titleCaseStr (replaceSeps (stripExt filename))).take 200)
      = (titleCaseStr (replaceSeps (stripExt filename))).take 200 := by
    rw [stripExt, he]
    simp
  have hreps2 : replaceSeps ((titleCaseStr (replaceSeps (stripExt filename))).take 200)
      = (titleCaseStr (replaceSeps (stripExt filename))).take 200 :=
    Lemmas.replaceSeps_eq_self _ hnosep
  have hlow : ((titleCaseStr (replaceSeps (stripExt filename))).take 200).map lowerChar
      = ((replaceSeps (stripExt filename)).map lowerChar).take 200 := by
    rw [List.map_take, Lemmas.titleCaseStr_map_lower]
  have hg2 : isGeneric ((titleCaseStr (replaceSeps (stripExt filename))).take 200) = false := by
    rw [isGeneric, List.any_eq_false]
    intro n hn
    rw [isGeneric, List.any_eq_false] at hg
    intro hsub
    rw [hlow] at hsub
    exact hg n hn (Lemmas.isSubstring_take n _ 200 hsub)
  have hlen2' : ((titleCaseStr (replaceSeps (stripExt filename))).take 200).length
      = min 200 (replaceSeps (stripExt filename)).length := by
    rw [List.length_take, Lemmas.titleCaseStr_length]
  have hcond2 : ¬ (isGeneric ((titleCaseStr (replaceSeps (stripExt filename))).take 200) = true ∨
      ((titleCaseStr (replaceSeps (stripExt filename))).take 200).length < 5) := by
    rintro (h | h)
    · rw [hg2] at h
      exact Bool.noConfusion h
    · rw [hlen2'] at h
      omega
  simp only [generateTitle]
  rw [hstrip2, hreps2, if_neg hcond2, Lemmas.titleCaseStr_idem_take,
    List.take_of_length_le (List.length_take_le 200 _), if_neg hlen1]

/-- Witness for the amended C9: `my_invention.txt` derives `My Invention`
and re-running the derivation on it returns it unchanged. -/
theorem C9_title_round_trip_witness :
    generateTitle (generateTitle (str "my_invention.txt") (str "some body"))
        (str "some body")
      = generateTitle (str "my_invention.txt") (str "some body") :=
  C9_title_round_trip (str "my_invention.txt") (str "some body")
    (by decide) (by decide) (by decide)

end Trogon
